import Mathlib

/-!
Verification of the `pl::BasicStringView` component of the philslib repository
(src/include/pl/string_view.hpp), a non-owning read-only view over a
contiguous, null-terminated character sequence.

Embedding: the referenced storage is a memory, a total function from addresses
(Nat) to character values (Nat, the value 0 being the terminator character
CharT()).  A view is the pair of its two fields `m_data` (address of the first
viewed character) and `m_size` (number of viewed characters), exactly as in the
C++ class.  The character-traits policy (std::char_traits, an external
collaborator of the component, spec section 6) is modelled with Nat equality
for `eq` and a sign-valued positional comparison for `compare`.  All view
operations are pure functions of the view value and the memory; operations
that in C++ mutate the view in place (remove_prefix, swap) return the new view
value(s), which makes the fact that they never touch the referenced memory
explicit in their types.
-/

namespace pl

/-- The memory holding the referenced character data: `read a` is the
character value stored at address `a`.  `emptyAddr` is the address of the
static empty string of `pl::detail::empty_string` (string_view.hpp lines
51-74), the string a default-constructed view points at. -/
structure Memory where
  read : Nat → Nat
  emptyAddr : Nat

/-- The two data members of `pl::BasicStringView` (string_view.hpp lines
529-531): `m_data` is the address of the first character, `m_size` the
element count, not counting the terminator. -/
structure BasicStringView where
  m_data : Nat
  m_size : Nat
deriving DecidableEq

/-- Models the character-traits comparison `Traits::compare(p, q, n)`
(std::char_traits, the traits policy of spec section 6): compares `n`
characters position by position; at the first position where the characters
differ the result is negative (-1) or positive (1) by the character order,
and 0 when all `n` positions hold equal characters. -/
def traitsCompare (m : Memory) (p q : Nat) : Nat → Int
  | 0 => 0
  | n + 1 =>
    if m.read p < m.read q then -1
    else if m.read q < m.read p then 1
    else traitsCompare m (p + 1) (q + 1) n

/-- Invariant of the data model (spec section 3): every constructible source
is null-terminated, so the character one past the last viewed character is
the zero-valued terminator. -/
abbrev NullTerminated (m : Memory) (v : BasicStringView) : Prop :=
  m.read (v.m_data + v.m_size) = 0

/-- The characters of `n` consecutive addresses starting at `p`. -/
def contentFrom (m : Memory) (p : Nat) : Nat → List Nat
  | 0 => []
  | n + 1 => m.read p :: contentFrom m (p + 1) n

/-- The character content of the viewed range `[m_data, m_data + m_size)`. -/
def content (m : Memory) (v : BasicStringView) : List Nat :=
  contentFrom m v.m_data v.m_size

/-- `size()` (string_view.hpp line 309). -/
def BasicStringView.size (v : BasicStringView) : Nat :=
  v.m_size

/-- `empty()` (string_view.hpp lines 315-318): `size() == 0`. -/
def BasicStringView.empty (v : BasicStringView) : Bool :=
  v.size == 0

/-- `data()` (string_view.hpp line 386). -/
def BasicStringView.data (v : BasicStringView) : Nat :=
  v.m_data

/-- The unchecked `operator[]` (string_view.hpp lines 331-334):
`data()[position]`, i.e. the character at address `m_data + position`. -/
def BasicStringView.get (v : BasicStringView) (m : Memory) (position : Nat) : Nat :=
  m.read (v.data + position)

/-- The bounds-checked accessor `at` (string_view.hpp lines 347-355); named
`at'` because `at` is reserved in Lean.  The source throws
`std::out_of_range` when `position > size()`, modelled as `none`; otherwise
it returns `operator[](position)`. -/
def BasicStringView.at' (v : BasicStringView) (m : Memory) (position : Nat) : Option Nat :=
  if position > v.size then none
  else some (v.get m position)

/-- `front()` (string_view.hpp line 364): `operator[](0)`. -/
def BasicStringView.front (v : BasicStringView) (m : Memory) : Nat :=
  v.get m 0

/-- `back()` (string_view.hpp lines 372-375): `operator[](size() - 1)`.  The
source documents the behaviour as undefined when `empty()`; that case (a
size_t wrap-around in C++) is outside the model, and `back` is only used
behind a non-empty guard. -/
def BasicStringView.back (v : BasicStringView) (m : Memory) : Nat :=
  v.get m (v.size - 1)

/-- The default constructor (string_view.hpp lines 113-117): points at the
static empty string and has size 0. -/
def BasicStringView.default (m : Memory) : BasicStringView :=
  { m_data := m.emptyAddr, m_size := 0 }

/-- `remove_prefix(charactersToRemove)` (string_view.hpp lines 396-404):
clamps the count to `size()`, then advances `m_data` and shrinks `m_size` by
the clamped count.  Returns the updated view value; the memory is not an
argument, so the referenced storage is untouched by construction. -/
def BasicStringView.remove_prefix (v : BasicStringView) (charactersToRemove : Nat) :
    BasicStringView :=
  let n := if charactersToRemove > v.size then v.size else charactersToRemove
  { m_data := v.m_data + n, m_size := v.m_size - n }

/-- `swap(other)` (string_view.hpp lines 411-419): exchanges the `m_data`
and `m_size` fields of the two views, through a saved temporary exactly as
the source does.  Returns the pair (this after, other after). -/
def BasicStringView.swap (v other : BasicStringView) : BasicStringView × BasicStringView :=
  let pointer := v.m_data
  let v1 : BasicStringView := { v with m_data := other.m_data }
  let other1 : BasicStringView := { other with m_data := pointer }
  let size := v1.m_size
  let v2 : BasicStringView := { v1 with m_size := other1.m_size }
  let other2 : BasicStringView := { other1 with m_size := size }
  (v2, other2)

/-- `to_string()` (string_view.hpp lines 427-433): materializes an owning
string from `[begin(), end())`; the owning string is modelled by its
character list. -/
def BasicStringView.to_string (v : BasicStringView) (m : Memory) : List Nat :=
  content m v

/-- The converting constructor from an owning `std::basic_string`
(string_view.hpp lines 169-175): borrows the string's buffer, so `m_data`
is the buffer address and `m_size` the string's length. -/
def viewOfString (addr : Nat) (s : List Nat) : BasicStringView :=
  { m_data := addr, m_size := s.length }

/-- The owning string `s` resides in memory `m` at buffer address `addr`:
each of its characters is stored at the corresponding offset. -/
abbrev storedAt (m : Memory) (addr : Nat) (s : List Nat) : Prop :=
  ∀ i, i < s.length → m.read (addr + i) = s.getD i 0

/-- `compare(other)` (string_view.hpp lines 444-455): traits comparison over
the first `min(size(), other.size())` characters; when that is 0, the sizes
break the tie. -/
def BasicStringView.compare (v : BasicStringView) (m : Memory) (other : BasicStringView) :
    Int :=
  let length := min v.size other.size
  let result := traitsCompare m v.data other.data length
  if result = 0 then
    if v.size = other.size then 0 else if v.size < other.size then -1 else 1
  else result

/-- `starts_with(value_type)` (string_view.hpp lines 480-483):
`not empty() and eq(character, front())`. -/
def BasicStringView.starts_with_char (v : BasicStringView) (m : Memory) (character : Nat) :
    Bool :=
  !v.empty && (character == v.front m)

/-- `starts_with(BasicStringView)` (string_view.hpp lines 492-498):
`size() >= stringView.size()` and the traits comparison of the first
`stringView.size()` characters is 0. -/
def BasicStringView.starts_with (v : BasicStringView) (m : Memory)
    (stringView : BasicStringView) : Bool :=
  decide (v.size ≥ stringView.size) &&
    decide (traitsCompare m v.data stringView.data stringView.size = 0)

/-- `ends_with(value_type)` (string_view.hpp lines 507-510):
`not empty() and eq(character, back())`. -/
def BasicStringView.ends_with_char (v : BasicStringView) (m : Memory) (character : Nat) :
    Bool :=
  !v.empty && (character == v.back m)

/-- `ends_with(BasicStringView)` (string_view.hpp lines 519-527):
`size() >= stringView.size()` and the traits comparison of the last
`stringView.size()` characters, read from `data() + size() -
stringView.size()`, is 0. -/
def BasicStringView.ends_with (v : BasicStringView) (m : Memory)
    (stringView : BasicStringView) : Bool :=
  decide (v.size ≥ stringView.size) &&
    decide (traitsCompare m (v.data + v.size - stringView.size) stringView.data
      stringView.size = 0)

/-- Specification-side comparison, written from the spec's words: a
lexicographic three-way comparison of the two character sequences, the
shorter sequence comparing less when it is a proper prefix of the longer. -/
def lexCompare : List Nat → List Nat → Int
  | [], [] => 0
  | [], _ :: _ => -1
  | _ :: _, [] => 1
  | x :: xs, y :: ys =>
    if x < y then -1 else if y < x then 1 else lexCompare xs ys

/-- A concrete memory used to instantiate theorems with hypotheses: it holds
the null-terminated strings hello (addresses 0-5), abc (6-9) and abd
(10-13), and its static empty string lives at address 5. -/
def testMem : Memory :=
  { read := fun i => List.getD [104, 101, 108, 108, 111, 0, 97, 98, 99, 0, 97, 98, 100, 0] i 0,
    emptyAddr := 5 }

/-- The character list of `n` addresses has length `n`. -/
theorem contentFrom_length (m : Memory) : ∀ n p, (contentFrom m p n).length = n := by
  intro n
  induction n with
  | zero => intro p; rfl
  | succ k ih => intro p; simp [contentFrom, ih]

/-- Reading the character list at offset `i < n` gives the memory character
at address `p + i`. -/
theorem contentFrom_getD (m : Memory) :
    ∀ n p i, i < n → (contentFrom m p n).getD i 0 = m.read (p + i) := by
  intro n
  induction n with
  | zero => intro p i hi; omega
  | succ k ih =>
    intro p i hi
    cases i with
    | zero => simp [contentFrom]
    | succ j =>
      have hj : j < k := by omega
      have e : p + (j + 1) = p + 1 + j := by omega
      simp only [contentFrom, List.getD_cons_succ, e]
      exact ih (p + 1) j hj

/-- The source `compare` agrees with the specification-side lexicographic
comparison of the two character contents, for arbitrary fields. -/
theorem compareAux (m : Memory) :
    ∀ n k p q, BasicStringView.compare ⟨p, n⟩ m ⟨q, k⟩ =
      lexCompare (contentFrom m p n) (contentFrom m q k) := by
  intro n
  induction n with
  | zero =>
    intro k p q
    cases k with
    | zero =>
      simp [BasicStringView.compare, BasicStringView.size, BasicStringView.data,
        traitsCompare, lexCompare, contentFrom]
    | succ j =>
      simp [BasicStringView.compare, BasicStringView.size, BasicStringView.data,
        traitsCompare, lexCompare, contentFrom]
  | succ i ih =>
    intro k p q
    cases k with
    | zero =>
      simp [BasicStringView.compare, BasicStringView.size, BasicStringView.data,
        traitsCompare, lexCompare, contentFrom]
    | succ j =>
      have hmin : min (i + 1) (j + 1) = min i j + 1 := by omega
      simp only [BasicStringView.compare, BasicStringView.size, BasicStringView.data,
        contentFrom, lexCompare, hmin, traitsCompare]
      rcases Nat.lt_trichotomy (m.read p) (m.read q) with h | h | h
      · simp [h]
      · have h1 : ¬ m.read p < m.read q := by omega
        have h2 : ¬ m.read q < m.read p := by omega
        have key := ih j (p + 1) (q + 1)
        simp only [BasicStringView.compare, BasicStringView.size, BasicStringView.data] at key
        simp only [h1, h2, if_false]
        rw [← key]
        simp only [Nat.add_right_cancel_iff, Nat.add_lt_add_iff_right]
      · have h1 : ¬ m.read p < m.read q := by omega
        simp [h1, h, Int.one_ne_zero]

/-- The source `compare` equals the lexicographic comparison of contents. -/
theorem compare_eq_lexCompare (m : Memory) (a b : BasicStringView) :
    a.compare m b = lexCompare (content m a) (content m b) := by
  cases a with
  | mk p n => cases b with
    | mk q k => exact compareAux m n k p q

/-- The traits comparison of `n` characters is 0 exactly when the characters
agree position by position. -/
theorem traitsCompare_eq_zero_iff (m : Memory) :
    ∀ n p q, traitsCompare m p q n = 0 ↔ ∀ i, i < n → m.read (p + i) = m.read (q + i) := by
  intro n
  induction n with
  | zero => intro p q; simp [traitsCompare]
  | succ k ih =>
    intro p q
    simp only [traitsCompare]
    rcases Nat.lt_trichotomy (m.read p) (m.read q) with h | h | h
    · rw [if_pos h]
      constructor
      · intro hc; exact absurd hc (by decide)
      · intro hall
        have h0 := hall 0 (Nat.succ_pos k)
        simp at h0
        omega
    · have h1 : ¬ m.read p < m.read q := by omega
      have h2 : ¬ m.read q < m.read p := by omega
      rw [if_neg h1, if_neg h2]
      rw [ih (p + 1) (q + 1)]
      constructor
      · intro htail i hi
        cases i with
        | zero => simpa using h
        | succ j =>
          have e1 : p + (j + 1) = p + 1 + j := by omega
          have e2 : q + (j + 1) = q + 1 + j := by omega
          rw [e1, e2]
          exact htail j (by omega)
      · intro hall i hi
        have e1 : p + 1 + i = p + (i + 1) := by omega
        have e2 : q + 1 + i = q + (i + 1) := by omega
        rw [e1, e2]
        exact hall (i + 1) (by omega)
    · have h1 : ¬ m.read p < m.read q := by omega
      rw [if_neg h1, if_pos h]
      constructor
      · intro hc; exact absurd hc (by decide)
      · intro hall
        have h0 := hall 0 (Nat.succ_pos k)
        simp at h0
        omega

/-- Lexicographic comparison of a list with itself is 0. -/
theorem lexCompare_self : ∀ s : List Nat, lexCompare s s = 0 := by
  intro s
  induction s with
  | nil => rfl
  | cons x xs ih => simp [lexCompare, ih]

/-- Lexicographic comparison is antisymmetric up to sign. -/
theorem lexCompare_neg : ∀ s t : List Nat, lexCompare s t = -(lexCompare t s) := by
  intro s
  induction s with
  | nil =>
    intro t
    cases t with
    | nil => rfl
    | cons y ys => rfl
  | cons x xs ih =>
    intro t
    cases t with
    | nil => rfl
    | cons y ys =>
      simp only [lexCompare]
      rcases Nat.lt_trichotomy x y with h | h | h
      · have h2 : ¬ y < x := by omega
        simp [h, h2]
      · subst h
        simp only [lt_self_iff_false, if_false]
        exact ih ys
      · have h1 : ¬ x < y := by omega
        simp [h, h1]

/-- Lexicographic comparison is transitive in its strict negative form. -/
theorem lexCompare_trans_neg :
    ∀ s t u : List Nat, lexCompare s t < 0 → lexCompare t u < 0 → lexCompare s u < 0 := by
  intro s
  induction s with
  | nil =>
    intro t u hst htu
    cases t with
    | nil => simp [lexCompare] at hst
    | cons y ys =>
      cases u with
      | nil => simp [lexCompare] at htu
      | cons z zs => simp [lexCompare]
  | cons x xs ih =>
    intro t u hst htu
    cases t with
    | nil => simp [lexCompare] at hst
    | cons y ys =>
      cases u with
      | nil => simp [lexCompare] at htu
      | cons z zs =>
        simp only [lexCompare] at hst htu ⊢
        rcases Nat.lt_trichotomy x y with hxy | hxy | hxy
        · rcases Nat.lt_trichotomy y z with hyz | hyz | hyz
          · rw [if_pos (by omega : x < z)]; decide
          · rw [if_pos (by omega : x < z)]; decide
          · rw [if_neg (by omega : ¬ y < z), if_pos hyz] at htu
            exact absurd htu (by decide)
        · rcases Nat.lt_trichotomy y z with hyz | hyz | hyz
          · rw [if_pos (by omega : x < z)]; decide
          · rw [if_neg (by omega : ¬ x < z), if_neg (by omega : ¬ z < x)]
            rw [if_neg (by omega : ¬ x < y), if_neg (by omega : ¬ y < x)] at hst
            rw [if_neg (by omega : ¬ y < z), if_neg (by omega : ¬ z < y)] at htu
            exact ih ys zs hst htu
          · rw [if_neg (by omega : ¬ y < z), if_pos hyz] at htu
            exact absurd htu (by decide)
        · rw [if_neg (by omega : ¬ x < y), if_pos hxy] at hst
          exact absurd hst (by decide)

/-- Dropping the first `n` characters of a viewed range gives the content of
the range advanced by `n`. -/
theorem contentFrom_drop (m : Memory) :
    ∀ n s p, n ≤ s → contentFrom m (p + n) (s - n) = (contentFrom m p s).drop n := by
  intro n
  induction n with
  | zero => intro s p h; simp
  | succ j ih =>
    intro s p h
    cases s with
    | zero => omega
    | succ t =>
      have e1 : p + (j + 1) = p + 1 + j := by omega
      have e2 : t + 1 - (j + 1) = t - j := by omega
      rw [e1, e2]
      simp only [contentFrom, List.drop_succ_cons]
      exact ih t (p + 1) (by omega)

/-- A stored list is recovered as the content of its buffer range. -/
theorem contentFrom_of_stored (m : Memory) :
    ∀ s : List Nat, ∀ addr, (∀ i, i < s.length → m.read (addr + i) = s.getD i 0) →
      contentFrom m addr s.length = s := by
  intro s
  induction s with
  | nil => intro addr h; rfl
  | cons x xs ih =>
    intro addr h
    simp only [List.length_cons, contentFrom, List.cons.injEq]
    constructor
    · have h0 := h 0 (by simp)
      simpa using h0
    · apply ih
      intro i hi
      have e : addr + (i + 1) = addr + 1 + i := by omega
      have := h (i + 1) (by simpa using Nat.succ_lt_succ hi)
      rw [e] at this
      simpa using this

/-- Claim C1: for every pair of views, `compare` performs a lexicographic
three-way comparison over the first `min(a.size(), b.size())` characters
using the traits comparison (conjunct 1: it equals the lexicographic
comparison of the two contents); and whenever the common prefix compares
equal, the result is 0 when the sizes are equal, negative (-1) when
`a.size() < b.size()`, and positive (1) when `a.size() > b.size()`. -/
theorem claim_compare_lexicographic (m : Memory) (a b : BasicStringView) :
    a.compare m b = lexCompare (content m a) (content m b) ∧
    ((∀ i, i < min a.m_size b.m_size → a.get m i = b.get m i) →
      (a.m_size = b.m_size → a.compare m b = 0) ∧
      (a.m_size < b.m_size → a.compare m b = -1) ∧
      (b.m_size < a.m_size → a.compare m b = 1)) := by
  constructor
  · exact compare_eq_lexCompare m a b
  · intro heq
    have htc : traitsCompare m a.m_data b.m_data (min a.m_size b.m_size) = 0 := by
      rw [traitsCompare_eq_zero_iff]
      intro i hi
      exact heq i hi
    refine ⟨fun hsz => ?_, fun hsz => ?_, fun hsz => ?_⟩
    · have htc2 : traitsCompare m a.m_data b.m_data b.m_size = 0 := by
        have e : min a.m_size b.m_size = b.m_size := by omega
        rwa [e] at htc
      simp [BasicStringView.compare, BasicStringView.size, BasicStringView.data, htc2, hsz]
    · have hne : a.m_size ≠ b.m_size := by omega
      simp [BasicStringView.compare, BasicStringView.size, BasicStringView.data, htc, hne, hsz]
    · have hne : a.m_size ≠ b.m_size := by omega
      have hnlt : ¬ a.m_size < b.m_size := by omega
      simp [BasicStringView.compare, BasicStringView.size, BasicStringView.data, htc, hne, hnlt]

/-- Witness for C1: the view of the first two characters of hello is a
proper prefix of the view of hello, so `compare` returns -1. -/
theorem claim_compare_lexicographic_witness :
    BasicStringView.compare ⟨0, 2⟩ testMem ⟨0, 5⟩ = -1 :=
  ((claim_compare_lexicographic testMem ⟨0, 2⟩ ⟨0, 5⟩).2 (by decide)).2.1 (by decide)

/-- Claim C2: `at` fails exactly when `position > size()`; `at(size())`
returns the zero-valued terminator (under the null-termination invariant);
and for `position <= size()` it returns the same character as the unchecked
`operator[]`. -/
theorem claim_at_bounds (m : Memory) (v : BasicStringView) (p : Nat)
    (hNT : NullTerminated m v) :
    (v.at' m p = none ↔ v.m_size < p) ∧
    v.at' m v.m_size = some 0 ∧
    (p ≤ v.m_size → v.at' m p = some (v.get m p)) := by
  refine ⟨?_, ?_, ?_⟩
  · by_cases h : v.m_size < p
    · simp [BasicStringView.at', BasicStringView.size, h]
    · simp [BasicStringView.at', BasicStringView.size, h]
  · have h : ¬ v.m_size < v.m_size := lt_irrefl _
    simp only [BasicStringView.at', BasicStringView.size, gt_iff_lt, h, if_false]
    exact congrArg some hNT
  · intro hp
    have h : ¬ v.m_size < p := by omega
    simp [BasicStringView.at', BasicStringView.size, h]

/-- Witness for C2 on the view of hello: `at(5)` succeeds with the
terminator and `at(3)` agrees with the unchecked accessor. -/
theorem claim_at_bounds_witness :
    BasicStringView.at' ⟨0, 5⟩ testMem 5 = some 0 ∧
    BasicStringView.at' ⟨0, 5⟩ testMem 3 = some ( BasicStringView.get ⟨0, 5⟩ testMem 3) :=
  ⟨(claim_at_bounds testMem ⟨0, 5⟩ 5 (by decide)).2.1,
   (claim_at_bounds testMem ⟨0, 5⟩ 3 (by decide)).2.2 (by decide)⟩

/-- Claim C3: `starts_with(stringView)` holds iff the argument is no longer
than the view and the leading characters agree; `ends_with(stringView)`
holds iff the argument is no longer than the view and the trailing
characters agree; and the single-character overloads are false on an empty
view for every character. -/
theorem claim_starts_ends_with (m : Memory) (v sv : BasicStringView) :
    (v.starts_with m sv = true ↔
      sv.m_size ≤ v.m_size ∧ ∀ i, i < sv.m_size → v.get m i = sv.get m i) ∧
    (v.ends_with m sv = true ↔
      sv.m_size ≤ v.m_size ∧
        ∀ i, i < sv.m_size → v.get m (v.m_size - sv.m_size + i) = sv.get m i) ∧
    (v.m_size = 0 → ∀ c, v.starts_with_char m c = false ∧ v.ends_with_char m c = false) := by
  refine ⟨?_, ?_, ?_⟩
  · simp only [BasicStringView.starts_with, BasicStringView.size, BasicStringView.data,
      Bool.and_eq_true, decide_eq_true_eq, ge_iff_le]
    rw [traitsCompare_eq_zero_iff]
    exact Iff.rfl
  · simp only [BasicStringView.ends_with, BasicStringView.size, BasicStringView.data,
      Bool.and_eq_true, decide_eq_true_eq, ge_iff_le]
    rw [traitsCompare_eq_zero_iff]
    constructor
    · rintro ⟨h1, h2⟩
      refine ⟨h1, fun i hi => ?_⟩
      have e : v.m_data + v.m_size - sv.m_size + i
          = v.m_data + (v.m_size - sv.m_size + i) := by omega
      have h3 := h2 i hi
      rw [e] at h3
      exact h3
    · rintro ⟨h1, h2⟩
      refine ⟨h1, fun i hi => ?_⟩
      have e : v.m_data + v.m_size - sv.m_size + i
          = v.m_data + (v.m_size - sv.m_size + i) := by omega
      rw [e]
      exact h2 i hi
  · intro h0 c
    constructor
    · simp [BasicStringView.starts_with_char, BasicStringView.empty, BasicStringView.size, h0]
    · simp [BasicStringView.ends_with_char, BasicStringView.empty, BasicStringView.size, h0]

/-- Witness for C3: hello starts with he, ends with lo, and the empty view
does not start with the character h. -/
theorem claim_starts_ends_with_witness :
    BasicStringView.starts_with ⟨0, 5⟩ testMem ⟨0, 2⟩ = true ∧
    BasicStringView.ends_with ⟨0, 5⟩ testMem ⟨3, 2⟩ = true ∧
    BasicStringView.starts_with_char ⟨5, 0⟩ testMem 104 = false :=
  ⟨((claim_starts_ends_with testMem ⟨0, 5⟩ ⟨0, 2⟩).1).mpr (by decide),
   ((claim_starts_ends_with testMem ⟨0, 5⟩ ⟨3, 2⟩).2.1).mpr (by decide),
   ((claim_starts_ends_with testMem ⟨5, 0⟩ ⟨5, 0⟩).2.2 (by decide) 104).1⟩

/-- Claim C4: for `n <= size()`, `remove_prefix(n)` yields size
`size() - n`, a data pointer advanced by `n`, and the trailing substring of
the original content; for `n > size()` it yields the empty view.  The
operation adjusts only the view's own fields: it does not take or return the
memory, so the underlying character data is untouched by construction. -/
theorem claim_remove_prefix_spec (m : Memory) (v : BasicStringView) (n : Nat) :
    (n ≤ v.m_size →
      ( BasicStringView.remove_prefix v n).m_size = v.m_size - n ∧
      ( BasicStringView.remove_prefix v n).m_data = v.m_data + n ∧
      content m ( BasicStringView.remove_prefix v n) = (content m v).drop n) ∧
    (v.m_size < n → ( BasicStringView.remove_prefix v n).m_size = 0) := by
  constructor
  · intro h
    have hc : ¬ v.m_size < n := by omega
    refine ⟨?_, ?_, ?_⟩
    · simp [BasicStringView.remove_prefix, BasicStringView.size, hc]
    · simp [BasicStringView.remove_prefix, BasicStringView.size, hc]
    · simp only [content, BasicStringView.remove_prefix, BasicStringView.size, gt_iff_lt, hc,
        if_false]
      exact contentFrom_drop m n v.m_size v.m_data h
  · intro h
    simp [BasicStringView.remove_prefix, BasicStringView.size, h]

/-- Witness for C4 on the view of hello: removing 2 characters gives size 3
and an advanced pointer; removing 7 empties the view. -/
theorem claim_remove_prefix_spec_witness :
    ( BasicStringView.remove_prefix ⟨0, 5⟩ 2).m_size = 3 ∧
    ( BasicStringView.remove_prefix ⟨0, 5⟩ 2).m_data = 2 ∧
    ( BasicStringView.remove_prefix ⟨0, 5⟩ 7).m_size = 0 := by
  refine ⟨?_, ?_, ?_⟩
  · exact ((claim_remove_prefix_spec testMem ⟨0, 5⟩ 2).1 (by decide)).1
  · exact ((claim_remove_prefix_spec testMem ⟨0, 5⟩ 2).1 (by decide)).2.1
  · exact (claim_remove_prefix_spec testMem ⟨0, 5⟩ 7).2 (by decide)

/-- Claim C5: `compare` is reflexive, antisymmetric up to sign, and
transitive on the strict negative side, for every memory. -/
theorem claim_compare_order_laws (m : Memory) :
    (∀ v : BasicStringView, v.compare m v = 0) ∧
    (∀ a b : BasicStringView, a.compare m b = -(b.compare m a)) ∧
    (∀ a b c : BasicStringView,
      a.compare m b < 0 → b.compare m c < 0 → a.compare m c < 0) := by
  refine ⟨?_, ?_, ?_⟩
  · intro v
    rw [compare_eq_lexCompare]
    exact lexCompare_self _
  · intro a b
    rw [compare_eq_lexCompare, compare_eq_lexCompare]
    exact lexCompare_neg _ _
  · intro a b c hab hbc
    rw [compare_eq_lexCompare] at hab hbc ⊢
    exact lexCompare_trans_neg _ _ _ hab hbc

/-- Witness for C5: transitivity across abc, abd, hello, reflexivity at abc,
and antisymmetry between abc and abd. -/
theorem claim_compare_order_laws_witness :
    BasicStringView.compare ⟨6, 3⟩ testMem ⟨0, 5⟩ < 0 ∧
    BasicStringView.compare ⟨6, 3⟩ testMem ⟨6, 3⟩ = 0 ∧
    BasicStringView.compare ⟨6, 3⟩ testMem ⟨10, 3⟩
      = -( BasicStringView.compare ⟨10, 3⟩ testMem ⟨6, 3⟩) :=
  ⟨(claim_compare_order_laws testMem).2.2 ⟨6, 3⟩ ⟨10, 3⟩ ⟨0, 5⟩ (by decide) (by decide),
   (claim_compare_order_laws testMem).1 ⟨6, 3⟩,
   (claim_compare_order_laws testMem).2.1 ⟨6, 3⟩ ⟨10, 3⟩⟩

/-- Claim C6: under the null-termination invariant of the data model,
indexing one past the last viewed character with the unchecked `operator[]`
yields the zero-valued terminator. -/
theorem claim_index_size_terminator (m : Memory) (v : BasicStringView)
    (hNT : NullTerminated m v) :
    v.get m v.m_size = 0 :=
  hNT

/-- Witness for C6: indexing the view of hello at position 5 yields 0. -/
theorem claim_index_size_terminator_witness :
    BasicStringView.get ⟨0, 5⟩ testMem 5 = 0 :=
  claim_index_size_terminator testMem ⟨0, 5⟩ (by decide)

/-- Claim C7: materializing `to_string` and re-viewing the stored result
yields a view that compares equal to the original, with the same size and
the same characters. -/
theorem claim_to_string_roundtrip (m : Memory) (v : BasicStringView) (addr : Nat)
    (hstored : storedAt m addr (v.to_string m)) :
    (viewOfString addr (v.to_string m)).compare m v = 0 ∧
    (viewOfString addr (v.to_string m)).m_size = v.m_size ∧
    (∀ i, i < v.m_size → (viewOfString addr (v.to_string m)).get m i = v.get m i) := by
  have hlen : (v.to_string m).length = v.m_size := by
    simp [BasicStringView.to_string, content, contentFrom_length]
  have hcontent : content m (viewOfString addr (v.to_string m)) = v.to_string m := by
    simp only [content, viewOfString]
    exact contentFrom_of_stored m (v.to_string m) addr hstored
  refine ⟨?_, ?_, ?_⟩
  · rw [compare_eq_lexCompare, hcontent]
    exact lexCompare_self _
  · simp [viewOfString, hlen]
  · intro i hi
    have h1 : m.read (addr + i) = (v.to_string m).getD i 0 := by
      apply hstored
      rw [hlen]
      exact hi
    have h2 : (v.to_string m).getD i 0 = m.read (v.m_data + i) :=
      contentFrom_getD m v.m_size v.m_data i hi
    exact h1.trans h2

/-- Witness for C7: re-viewing the materialized copy of abc at its own
buffer address compares equal to the original view. -/
theorem claim_to_string_roundtrip_witness :
    BasicStringView.compare
      (viewOfString 6 ( BasicStringView.to_string ⟨6, 3⟩ testMem)) testMem ⟨6, 3⟩ = 0 :=
  (claim_to_string_roundtrip testMem ⟨6, 3⟩ 6 (by decide)).1

/-- Claim C8: `swap` exactly exchanges the `m_data`/`m_size` fields of the
two views; for every memory the two results view the other view's former
content.  The memory is neither an argument nor a result of `swap`, so the
referenced storage, and with it the interpretation of any third view, is
unchanged by construction. -/
theorem claim_swap_exchanges (a b : BasicStringView) :
    ( BasicStringView.swap a b).1 = b ∧
    ( BasicStringView.swap a b).2 = a ∧
    ∀ m : Memory, content m ( BasicStringView.swap a b).1 = content m b ∧
      content m ( BasicStringView.swap a b).2 = content m a := by
  refine ⟨rfl, rfl, fun m => ⟨rfl, rfl⟩⟩

/-- Claim C9: a default-constructed view has size 0, is `empty()`, and its
data pointer is non-null, pointing at the static empty string, which holds
the terminator. -/
theorem claim_default_ctor (m : Memory) (hnn : m.emptyAddr ≠ 0)
    (hterm : m.read m.emptyAddr = 0) :
    ( BasicStringView.default m).m_size = 0 ∧
    ( BasicStringView.default m).empty = true ∧
    ( BasicStringView.default m).m_data ≠ 0 ∧
    m.read (( BasicStringView.default m).m_data) = 0 :=
  ⟨rfl, rfl, hnn, hterm⟩

/-- Witness for C9 in the test memory, whose static empty string lives at
address 5. -/
theorem claim_default_ctor_witness :
    ( BasicStringView.default testMem).m_size = 0 ∧
    ( BasicStringView.default testMem).empty = true ∧
    ( BasicStringView.default testMem).m_data ≠ 0 ∧
    testMem.read (( BasicStringView.default testMem).m_data) = 0 :=
  claim_default_ctor testMem (by decide) (by decide)

/-- Claim C10: on an empty view over a null-terminated source, `front()` is
still well-defined: it returns the zero-valued terminator, it is
`operator[](0)` by definition, and position 0 coincides with `size()`. -/
theorem claim_front_empty (m : Memory) (v : BasicStringView)
    (hNT : NullTerminated m v) (hempty : v.m_size = 0) :
    v.front m = 0 ∧ v.front m = v.get m 0 ∧ (0 : Nat) = v.m_size := by
  refine ⟨?_, rfl, hempty.symm⟩
  show m.read (v.m_data + 0) = 0
  have e : v.m_data + 0 = v.m_data + v.m_size := by omega
  rw [e]
  exact hNT

/-- Witness for C10: the empty view at the terminator of hello has
`front() = 0`. -/
theorem claim_front_empty_witness :
    BasicStringView.front ⟨5, 0⟩ testMem = 0 :=
  (claim_front_empty testMem ⟨5, 0⟩ (by decide) rfl).1

end pl
